import Mathlib

/-!
Shallow embedding of the llm-council frontend client:
the fetch wrappers in frontend/src/api.ts and the submit / stream-event
handling logic of the App component.

JS strings flowing through the SSE reader loop are modelled as lists of
characters (the TextDecoder with the stream flag reassembles code points
across byte-chunk boundaries, so character granularity is the faithful
level).  JSON.parse of an event line is modelled as an abstract
`parse : List Char -> Option StreamEvent` parameter: `none` is the case in
which JSON.parse throws and the catch block skips the line.  JS objects
used as string-keyed records are modelled as association lists in key
insertion order, which is the iteration order of Object.entries and
Object.keys for such objects.
-/

/-- `role` of a chat message: "user" | "assistant" (api.ts, MessageRole). -/
inductive MessageRole where
  | user
  | assistant
deriving DecidableEq

/-- ChatMessage from api.ts: `{role, content}`. -/
structure ChatMessage where
  role : MessageRole
  content : String
deriving DecidableEq

/-- ProviderResponse from api.ts: `{provider_id, content, error}`; `none` is JS null. -/
structure ProviderResponse where
  provider_id : String
  content : String
  error : Option String
deriving DecidableEq

/-- StreamEvent from api.ts: `{model_id, delta?} | {model_id, done?} | {model_id, error?}`.
An absent optional field is `none`. -/
structure StreamEvent where
  model_id : String
  delta : Option String
  done : Option Bool
  error : Option String
deriving DecidableEq

/-- One step of splitting on the newline character: the state is
(complete lines so far, current trailing segment).  Mirrors what
`buf.split("\n")` followed by popping the last element computes. -/
def pushChar (st : List (List Char) × List Char) (c : Char) :
    List (List Char) × List Char :=
  if c = '\n' then (st.1 ++ [st.2], []) else (st.1, st.2 ++ [c])

/-- `s.split("\n")` with the final element separated out:
`(splitNl s).1` are the complete (newline-terminated) lines in order and
`(splitNl s).2` is the segment after the last newline (the popped last
element of the JS split). -/
def splitNl (s : List Char) : List (List Char) × List Char :=
  s.foldl pushChar ([], [])

/-- The body of the per-line loop in sendDebateRoundStream: a line starting
with "data: " has its remainder JSON-parsed and delivered to onEvent;
a parse failure is caught and the line is skipped; other lines are ignored. -/
def processLine (parse : List Char → Option StreamEvent) (line : List Char) :
    List StreamEvent :=
  if ("data: ".toList).isPrefixOf line then
    match parse (line.drop 6) with
    | some ev => [ev]
    | none => []
  else []

/-- The events delivered for a list of complete lines, in order. -/
def eventsOfLines (parse : List Char → Option StreamEvent) :
    List (List Char) → List StreamEvent
  | [] => []
  | l :: ls => processLine parse l ++ eventsOfLines parse ls

/-- One iteration of the read loop of sendDebateRoundStream: append the
chunk to the buffer, split on newlines, keep the last segment as the new
buffer, and deliver the events of the complete lines. -/
def processChunk (parse : List Char → Option StreamEvent)
    (st : List Char × List StreamEvent) (chunk : List Char) :
    List Char × List StreamEvent :=
  let split := splitNl (st.1 ++ chunk)
  (split.2, st.2 ++ eventsOfLines parse split.1)

/-- The whole read loop of sendDebateRoundStream over the chunk sequence
produced by the response body reader: returns the final buffer and the
full sequence of onEvent invocations. -/
def runPair (parse : List Char → Option StreamEvent)
    (chunks : List (List Char)) : List Char × List StreamEvent :=
  chunks.foldl (processChunk parse) ([], [])

/-- The sequence of events sendDebateRoundStream delivers to onEvent. -/
def runStream (parse : List Char → Option StreamEvent)
    (chunks : List (List Char)) : List StreamEvent :=
  (runPair parse chunks).2

/-- A concrete stand-in for JSON.parse used to instantiate theorems on
concrete inputs: every line parses to a delta event carrying the line text. -/
def sampleParse (l : List Char) : Option StreamEvent :=
  some ⟨l.asString, some l.asString, none, none⟩

/-- Lookup in a JS object modelled as an association list in insertion
order: `obj[k]`, with `none` for an absent key. -/
def getKey : List (String × String) → String → Option String
  | [], _ => none
  | (k', v') :: rest, k => if k' = k then some v' else getKey rest k

/-- Assignment `obj[k] = v` on a JS object modelled as an association list:
an existing key keeps its position and gets the new value, a new key is
appended at the end (JS string-key insertion order). -/
def setKey : List (String × String) → String → String → List (String × String)
  | [], k, v => [(k, v)]
  | (k', v') :: rest, k, v =>
    if k' = k then (k, v) :: rest else (k', v') :: setKey rest k v

/-- Whether `k in obj`. -/
def hasKey (m : List (String × String)) (k : String) : Bool :=
  (getKey m k).isSome

/-- The streamingTurn state of the App component: the user text of the
in-flight turn plus the per-model accumulated content and error records. -/
structure StreamingTurn where
  user : String
  content : List (String × String)
  errors : List (String × String)
deriving DecidableEq

/-- The delta half of the onEvent callback in App.handleSubmit:
`if ("delta" in ev && ev.delta) next.content[id] = (next.content[id] ?? "") + ev.delta`.
The field must be present and truthy (a nonempty string). -/
def applyDelta (st : StreamingTurn) (ev : StreamEvent) : StreamingTurn :=
  match ev.delta with
  | some d =>
    if d = "" then st
    else
      let v := ((getKey st.content ev.model_id).getD "") ++ d
      { st with content := setKey st.content ev.model_id v }
  | none => st

/-- The error half of the onEvent callback in App.handleSubmit:
`if ("error" in ev && ev.error) next.errors[id] = ev.error`. -/
def applyError (st : StreamingTurn) (ev : StreamEvent) : StreamingTurn :=
  match ev.error with
  | some e =>
    if e = "" then st
    else { st with errors := setKey st.errors ev.model_id e }
  | none => st

/-- The full onEvent callback of App.handleSubmit in streaming mode: the
delta branch runs first, then the error branch; a done field is not
inspected at all. -/
def applyEvent (st : StreamingTurn) (ev : StreamEvent) : StreamingTurn :=
  applyError (applyDelta st ev) ev

/-- The streamingTurn state after a sequence of stream events, starting
from the fresh state `{user: text, content: {}, errors: {}}`. -/
def applyEvents (st : StreamingTurn) (evs : List StreamEvent) : StreamingTurn :=
  evs.foldl applyEvent st

/-- The forEach loop over Object.keys(prev.errors) in App.handleSubmit:
an error key with no response entry yet gets an empty-content entry
pushed at the end. -/
def pushMissingErrors (errsAll : List (String × String)) :
    List ProviderResponse → List (String × String) → List ProviderResponse
  | rs, [] => rs
  | rs, (id, _v) :: rest =>
    if rs.any (fun r => r.provider_id == id)
    then pushMissingErrors errsAll rs rest
    else pushMissingErrors errsAll (rs ++ [⟨id, "", getKey errsAll id⟩]) rest

/-- The post-stream responses assembly of App.handleSubmit: one entry per
key of the content record (with that key's error if any), then one
empty-content entry per error key not yet represented. -/
def assembleResponses (st : StreamingTurn) : List ProviderResponse :=
  pushMissingErrors st.errors
    (st.content.map fun p => ⟨p.1, p.2, getKey st.errors p.1⟩) st.errors

/-- A recorded turn of the App: the user text and the provider responses. -/
structure Turn where
  user : String
  responses : List ProviderResponse
deriving DecidableEq

/-- The turn appended to turns when the stream completes. -/
def recordTurn (st : StreamingTurn) : Turn :=
  ⟨st.user, assembleResponses st⟩

/-- getProviderLabel of the App component: known ids map to display names,
anything else is returned unchanged. -/
def getProviderLabel (id : String) : String :=
  if id = "chatgpt" then "ChatGPT"
  else if id = "gemini" then "Gemini"
  else if id = "grok" then "Grok"
  else if id = "kimi" then "Kimi"
  else if id = "claude" then "Claude"
  else id

/-- JS truthiness of `r.error : string | null`: null and the empty string
are falsy. -/
def truthyOpt : Option String → Bool
  | none => false
  | some s => s != ""

/-- The messages contributed by one prior turn in App.handleSubmit: the
user message, then one assistant message per response that has nonempty
content and a falsy error, with the content prefixed by the provider
label. -/
def turnMessages (t : Turn) : List ChatMessage :=
  ⟨.user, t.user⟩ ::
    ((t.responses.filter fun r => r.content != "" && !truthyOpt r.error).map
      fun r => ⟨.assistant, "Model " ++ getProviderLabel r.provider_id ++ ": " ++ r.content⟩)

/-- turns.flatMap over turnMessages. -/
def turnsMessages : List Turn → List ChatMessage
  | [] => []
  | t :: ts => turnMessages t ++ turnsMessages ts

/-- The messages array App.handleSubmit builds: all prior turns in order,
then the new user message. -/
def buildMessages (turns : List Turn) (text : String) : List ChatMessage :=
  turnsMessages turns ++ [⟨.user, text⟩]

/-- What one invocation of App.handleSubmit does, as a decision value:
nothing (blank input or already loading), an error banner with no request,
or one request carrying the built messages and the selected model ids. -/
inductive SubmitAction where
  | idle
  | reject (msg : String)
  | sendStream (messages : List ChatMessage) (ids : List String)
  | sendBatch (messages : List ChatMessage) (ids : List String)
deriving DecidableEq

/-- Whether a SubmitAction issues a network request. -/
def isSend : SubmitAction → Bool
  | .sendStream _ _ => true
  | .sendBatch _ _ => true
  | _ => false

/-- JS `input.trim()`: strip whitespace from both ends of the string. -/
def jsTrim (s : String) : String :=
  (((s.toList.dropWhile Char.isWhitespace).reverse.dropWhile
      Char.isWhitespace).reverse).asString

/-- App.handleSubmit: trim the input; return silently on blank text or
while loading; reject with the selection error banner when no model is
selected; otherwise issue exactly one streaming or batch request.
`selected` is Array.from(selectedModels). -/
def handleSubmit (input : String) (loading streaming : Bool)
    (selected : List String) (turns : List Turn) : SubmitAction :=
  let text := jsTrim input
  if text == "" || loading then .idle
  else if selected.length == 0 then
    .reject "Please select at least one model to participate."
  else if streaming then .sendStream (buildMessages turns text) selected
  else .sendBatch (buildMessages turns text) selected

/-- The JSON body `{messages, model_ids}` both debate endpoints receive. -/
structure RequestBody where
  messages : List ChatMessage
  model_ids : Option (List String)
deriving DecidableEq

/-- An outbound fetch call: method, url, Content-Type header, body. -/
structure HttpRequest where
  method : String
  url : String
  contentType : Option String
  body : Option RequestBody
deriving DecidableEq

/-- The part of a fetch response sendDebateRound inspects: ok status,
statusText, the error field of the JSON body of a failed response
(`none` when the body does not parse or has no error field), and the
parsed responses array of a successful body. -/
structure FetchResponse where
  ok : Bool
  statusText : String
  bodyError : Option String
  responses : List ProviderResponse
deriving DecidableEq

/-- The JS expression `err.error || res.statusText`: the error field when
present and truthy (nonempty), the status text otherwise. -/
def jsOr (o : Option String) (fallback : String) : String :=
  match o with
  | some s => if s = "" then fallback else s
  | none => fallback

/-- sendDebateRound from api.ts: one POST to base + "/debate" with a JSON
body `{messages, model_ids}`; a non-ok response throws the body error or
the status text, an ok response resolves to the parsed responses. -/
def sendDebateRound (base : String) (messages : List ChatMessage)
    (modelIds : Option (List String)) (res : FetchResponse) :
    HttpRequest × Except String (List ProviderResponse) :=
  (⟨"POST", base ++ "/debate", some "application/json", some ⟨messages, modelIds⟩⟩,
   if !res.ok then .error (jsOr res.bodyError res.statusText)
   else .ok res.responses)

/-- The part of a fetch response sendDebateRoundStream inspects: as for
FetchResponse, plus the body chunk sequence produced by the reader
(`none` when res.body is absent). -/
structure StreamFetchResponse where
  ok : Bool
  statusText : String
  bodyError : Option String
  body : Option (List (List Char))
deriving DecidableEq

/-- sendDebateRoundStream from api.ts: one POST to base + "/debate/stream"
with the same JSON body; a non-ok response throws the body error or the
status text before any event is delivered; a missing body throws; otherwise
the read loop delivers the events of the chunk sequence to onEvent. -/
def sendDebateRoundStream (base : String) (messages : List ChatMessage)
    (modelIds : Option (List String))
    (parse : List Char → Option StreamEvent) (res : StreamFetchResponse) :
    HttpRequest × Except String (List StreamEvent) :=
  (⟨"POST", base ++ "/debate/stream", some "application/json",
      some ⟨messages, modelIds⟩⟩,
   if !res.ok then .error (jsOr res.bodyError res.statusText)
   else match res.body with
     | none => .error "No response body"
     | some chunks => .ok (runStream parse chunks))

/-- The part of a fetch response getAvailableModels inspects: ok status and
the models field of the parsed JSON body.  The outer Option is whether
res.json() parses at all, the inner one whether the models field is
present. -/
structure ModelsFetchResponse where
  ok : Bool
  body : Option (Option (List String))
deriving DecidableEq

/-- getAvailableModels from api.ts: one GET of base + "/models" with no
body; a non-ok response yields the empty list; a parsed body without a
models field yields the empty list (`data.models || []`); an unparsable
body on an ok response is the only path that throws. -/
def getAvailableModels (base : String) (res : ModelsFetchResponse) :
    HttpRequest × Except String (List String) :=
  (⟨"GET", base ++ "/models", none, none⟩,
   if !res.ok then .ok []
   else match res.body with
     | none => .error "invalid json"
     | some none => .ok []
     | some (some ms) => .ok ms)

/-- The texts of the delta events of provider `p`, in arrival order. -/
def deltaTexts (p : String) : List StreamEvent → List String
  | [] => []
  | ev :: evs =>
    (if ev.model_id = p then
       match ev.delta with
       | some d => [d]
       | none => []
     else []) ++ deltaTexts p evs

/-- Concatenation of a list of strings. -/
def concatAll : List String → String
  | [] => ""
  | s :: l => s ++ concatAll l

/-- The content the App has accumulated for provider `p`:
`streamingTurn.content[p] ?? ""`. -/
def contentFor (st : StreamingTurn) (p : String) : String :=
  (getKey st.content p).getD ""

theorem foldl_pushChar_start (b : List Char) (ls : List (List Char))
    (r : List Char) :
    b.foldl pushChar (ls, r) =
      (ls ++ (b.foldl pushChar ([], r)).1, (b.foldl pushChar ([], r)).2) := by
  induction b generalizing ls r with
  | nil => simp
  | cons c b ih =>
    simp only [List.foldl_cons]
    by_cases hc : c = '\n'
    · subst hc
      have h1 : pushChar (ls, r) '\n' = (ls ++ [r], []) := by simp [pushChar]
      have h2 : pushChar (([] : List (List Char)), r) '\n' = ([r], []) := by
        simp [pushChar]
      rw [h1, h2, ih (ls ++ [r]) [], ih [r] []]
      simp
    · have h1 : pushChar (ls, r) c = (ls, r ++ [c]) := by simp [pushChar, hc]
      have h2 : pushChar (([] : List (List Char)), r) c = ([], r ++ [c]) := by
        simp [pushChar, hc]
      rw [h1, h2, ih ls (r ++ [c])]

theorem foldl_pushChar_no_nl (b : List Char) (hb : '\n' ∉ b)
    (st : List (List Char) × List Char) :
    b.foldl pushChar st = (st.1, st.2 ++ b) := by
  induction b generalizing st with
  | nil => simp
  | cons c b ih =>
    have hc : ¬(c = '\n') := fun h => hb (h ▸ List.mem_cons_self c b)
    have hb' : '\n' ∉ b := fun h => hb (List.mem_cons_of_mem _ h)
    simp only [List.foldl_cons]
    have h1 : pushChar st c = (st.1, st.2 ++ [c]) := by simp [pushChar, hc]
    rw [h1, ih hb']
    simp

theorem foldl_pushChar_tail_no_nl (b : List Char)
    (st : List (List Char) × List Char) (h : '\n' ∉ st.2) :
    '\n' ∉ (b.foldl pushChar st).2 := by
  induction b generalizing st with
  | nil => exact h
  | cons c b ih =>
    simp only [List.foldl_cons]
    by_cases hc : c = '\n'
    · subst hc
      have h1 : pushChar st '\n' = (st.1 ++ [st.2], []) := by simp [pushChar]
      rw [h1]
      exact ih _ (by simp)
    · have h1 : pushChar st c = (st.1, st.2 ++ [c]) := by simp [pushChar, hc]
      rw [h1]
      refine ih _ ?_
      simp only [List.mem_append, List.mem_singleton]
      rintro (h2 | h2)
      · exact h h2
      · exact hc h2.symm

theorem splitNl_no_nl (r : List Char) (hr : '\n' ∉ r) : splitNl r = ([], r) := by
  unfold splitNl
  rw [foldl_pushChar_no_nl r hr]
  simp

theorem splitNl_tail_no_nl (s : List Char) : '\n' ∉ (splitNl s).2 := by
  unfold splitNl
  exact foldl_pushChar_tail_no_nl s ([], []) (by simp)

theorem splitNl_append (a b : List Char) :
    splitNl (a ++ b) =
      ((splitNl a).1 ++ (splitNl ((splitNl a).2 ++ b)).1,
       (splitNl ((splitNl a).2 ++ b)).2) := by
  have h2 : '\n' ∉ (splitNl a).2 := splitNl_tail_no_nl a
  have h3 : List.foldl pushChar ([], []) (splitNl a).2 = ([], (splitNl a).2) :=
    splitNl_no_nl (splitNl a).2 h2
  have hsplit : splitNl ((splitNl a).2 ++ b) =
      b.foldl pushChar ([], (splitNl a).2) := by
    show List.foldl pushChar ([], []) ((splitNl a).2 ++ b) = _
    rw [List.foldl_append, h3]
  have hpair : List.foldl pushChar ([], []) a = ((splitNl a).1, (splitNl a).2) :=
    rfl
  show List.foldl pushChar ([], []) (a ++ b) = _
  rw [List.foldl_append, hpair, foldl_pushChar_start b (splitNl a).1 (splitNl a).2,
    hsplit]

theorem eventsOfLines_append (parse : List Char → Option StreamEvent)
    (l₁ l₂ : List (List Char)) :
    eventsOfLines parse (l₁ ++ l₂) =
      eventsOfLines parse l₁ ++ eventsOfLines parse l₂ := by
  induction l₁ with
  | nil => simp [eventsOfLines]
  | cons l ls ih => simp [eventsOfLines, ih]

theorem runPair_from (parse : List Char → Option StreamEvent)
    (chunks : List (List Char)) (r : List Char) (ev : List StreamEvent)
    (hr : '\n' ∉ r) :
    chunks.foldl (processChunk parse) (r, ev) =
      ((splitNl (r ++ chunks.flatten)).2,
       ev ++ eventsOfLines parse (splitNl (r ++ chunks.flatten)).1) := by
  induction chunks generalizing r ev with
  | nil =>
    simp only [List.flatten_nil, List.append_nil, List.foldl_nil]
    rw [splitNl_no_nl r hr]
    simp [eventsOfLines]
  | cons c cs ih =>
    simp only [List.foldl_cons, List.flatten_cons]
    have hstep : processChunk parse (r, ev) c =
        ((splitNl (r ++ c)).2,
         ev ++ eventsOfLines parse (splitNl (r ++ c)).1) := rfl
    rw [hstep, ih (splitNl (r ++ c)).2
          (ev ++ eventsOfLines parse (splitNl (r ++ c)).1)
          (splitNl_tail_no_nl (r ++ c))]
    have hkey : splitNl (r ++ (c ++ cs.flatten)) =
        ((splitNl (r ++ c)).1 ++
          (splitNl ((splitNl (r ++ c)).2 ++ cs.flatten)).1,
         (splitNl ((splitNl (r ++ c)).2 ++ cs.flatten)).2) := by
      rw [← List.append_assoc]
      exact splitNl_append (r ++ c) cs.flatten
    rw [hkey]
    simp [eventsOfLines_append, List.append_assoc]

theorem runPair_eq (parse : List Char → Option StreamEvent)
    (chunks : List (List Char)) :
    runPair parse chunks =
      ((splitNl chunks.flatten).2,
       eventsOfLines parse (splitNl chunks.flatten).1) := by
  unfold runPair
  rw [runPair_from parse chunks [] [] (by simp)]
  simp

theorem getKey_setKey_self (m : List (String × String)) (k v : String) :
    getKey (setKey m k v) k = some v := by
  induction m with
  | nil => simp [setKey, getKey]
  | cons p rest ih =>
    obtain ⟨k', v'⟩ := p
    by_cases h : k' = k
    · subst h
      simp [setKey, getKey]
    · simp [setKey, getKey, h, ih]

theorem getKey_setKey_ne (m : List (String × String)) (k v q : String)
    (h : k ≠ q) : getKey (setKey m k v) q = getKey m q := by
  induction m with
  | nil => simp [setKey, getKey, h]
  | cons p rest ih =>
    obtain ⟨k', v'⟩ := p
    by_cases h' : k' = k
    · subst h'
      simp [setKey, getKey, h]
    · simp [setKey, getKey, h', ih]

theorem applyError_content (st : StreamingTurn) (ev : StreamEvent) :
    (applyError st ev).content = st.content := by
  cases hev : ev.error with
  | none => simp [applyError, hev]
  | some e =>
    by_cases h : e = "" <;> simp [applyError, hev, h]

theorem applyDelta_errors (st : StreamingTurn) (ev : StreamEvent) :
    (applyDelta st ev).errors = st.errors := by
  cases hev : ev.delta with
  | none => simp [applyDelta, hev]
  | some d =>
    by_cases h : d = "" <;> simp [applyDelta, hev, h]

theorem concatAll_append (l₁ l₂ : List String) :
    concatAll (l₁ ++ l₂) = concatAll l₁ ++ concatAll l₂ := by
  induction l₁ with
  | nil => simp [concatAll, String.empty_append]
  | cons s l ih => simp [concatAll, ih, String.append_assoc]

theorem applyDelta_content_some (st : StreamingTurn) (ev : StreamEvent)
    (d : String) (hd : ev.delta = some d) (hde : ¬d = "") :
    (applyDelta st ev).content =
      setKey st.content ev.model_id
        (((getKey st.content ev.model_id).getD "") ++ d) := by
  unfold applyDelta
  rw [hd]
  simp [hde]

theorem contentFor_applyEvent (st : StreamingTurn) (ev : StreamEvent)
    (p : String) :
    contentFor (applyEvent st ev) p =
      contentFor st p ++
        (if ev.model_id = p then
           match ev.delta with
           | some d => d
           | none => ""
         else "") := by
  have hco : (applyEvent st ev).content = (applyDelta st ev).content :=
    applyError_content (applyDelta st ev) ev
  unfold contentFor
  rw [hco]
  cases hd : ev.delta with
  | none =>
    simp [applyDelta, hd, String.append_empty]
  | some d =>
    by_cases hde : d = ""
    · subst hde
      simp [applyDelta, hd, String.append_empty]
    · rw [applyDelta_content_some st ev d hd hde]
      by_cases hp : ev.model_id = p
      · rw [hp] at *
        rw [getKey_setKey_self]
        simp
      · rw [getKey_setKey_ne st.content ev.model_id _ p hp]
        simp [hp, String.append_empty]

theorem contentFor_applyEvents (evs : List StreamEvent) (p : String)
    (st : StreamingTurn) :
    contentFor (applyEvents st evs) p =
      contentFor st p ++ concatAll (deltaTexts p evs) := by
  induction evs generalizing st with
  | nil => simp [applyEvents, deltaTexts, concatAll, String.append_empty]
  | cons ev evs ih =>
    have hstep : applyEvents st (ev :: evs) = applyEvents (applyEvent st ev) evs :=
      rfl
    rw [hstep, ih, contentFor_applyEvent]
    have hhead : deltaTexts p (ev :: evs) =
        (if ev.model_id = p then
           match ev.delta with
           | some d => [d]
           | none => []
         else []) ++ deltaTexts p evs := rfl
    rw [hhead, concatAll_append, String.append_assoc]
    by_cases hp : ev.model_id = p
    · cases hd : ev.delta <;> simp [hp, hd, concatAll, String.append_empty]
    · simp [hp, concatAll, String.empty_append]

theorem hasKey_eq_true_iff_mem (m : List (String × String)) (q : String) :
    hasKey m q = true ↔ q ∈ m.map Prod.fst := by
  induction m with
  | nil => simp [hasKey, getKey]
  | cons p rest ih =>
    obtain ⟨k, v⟩ := p
    by_cases h : k = q
    · subst h
      simp [hasKey, getKey]
    · simp only [hasKey, getKey, if_neg h, List.map_cons, List.mem_cons]
      rw [← hasKey]
      rw [ih]
      constructor
      · exact fun hh => Or.inr hh
      · rintro (hh | hh)
        · exact absurd hh.symm h
        · exact hh

theorem hasKey_eq_false_iff (m : List (String × String)) (q : String) :
    hasKey m q = false ↔ q ∉ m.map Prod.fst := by
  rw [← hasKey_eq_true_iff_mem]
  cases hasKey m q <;> simp

theorem getKey_eq_none_of_hasKey_false (m : List (String × String)) (q : String)
    (h : hasKey m q = false) : getKey m q = none := by
  unfold hasKey at h
  cases hk : getKey m q with
  | none => rfl
  | some v =>
    rw [hk] at h
    simp at h

theorem setKey_cons_hit (k' v' : String) (rest : List (String × String))
    (k v : String) (h : k' = k) :
    setKey ((k', v') :: rest) k v = (k, v) :: rest := by
  simp [setKey, h]

theorem setKey_cons_miss (k' v' : String) (rest : List (String × String))
    (k v : String) (h : ¬k' = k) :
    setKey ((k', v') :: rest) k v = (k', v') :: setKey rest k v := by
  simp [setKey, h]

theorem mem_keys_setKey (m : List (String × String)) (k v q : String) :
    q ∈ (setKey m k v).map Prod.fst ↔ q ∈ m.map Prod.fst ∨ q = k := by
  induction m with
  | nil => simp [setKey]
  | cons p rest ih =>
    obtain ⟨k', v'⟩ := p
    by_cases h : k' = k
    · subst h
      rw [setKey_cons_hit k' v' rest k' v rfl]
      simp only [List.map_cons, List.mem_cons]
      tauto
    · rw [setKey_cons_miss k' v' rest k v h]
      simp only [List.map_cons, List.mem_cons, ih]
      tauto

theorem nodup_keys_setKey (m : List (String × String)) (k v : String)
    (h : (m.map Prod.fst).Nodup) : ((setKey m k v).map Prod.fst).Nodup := by
  induction m with
  | nil => simp [setKey]
  | cons p rest ih =>
    obtain ⟨k', v'⟩ := p
    simp only [List.map_cons, List.nodup_cons] at h
    obtain ⟨hk', hrest⟩ := h
    by_cases hh : k' = k
    · subst hh
      rw [setKey_cons_hit k' v' rest k' v rfl]
      simp only [List.map_cons, List.nodup_cons]
      exact ⟨hk', hrest⟩
    · rw [setKey_cons_miss k' v' rest k v hh]
      simp only [List.map_cons, List.nodup_cons]
      refine ⟨?_, ih hrest⟩
      rw [mem_keys_setKey]
      rintro (h1 | h1)
      · exact hk' h1
      · exact hh h1

theorem getKey_of_mem_nodup (m : List (String × String)) (k v : String)
    (h : (m.map Prod.fst).Nodup) (hm : (k, v) ∈ m) : getKey m k = some v := by
  induction m with
  | nil => simp at hm
  | cons p rest ih =>
    obtain ⟨k', v'⟩ := p
    simp only [List.map_cons, List.nodup_cons] at h
    rcases List.mem_cons.mp hm with h1 | h1
    · obtain ⟨hk, hv⟩ := Prod.mk.injEq _ _ _ _ ▸ h1
      · simp [getKey, hk.symm, hv]
    · by_cases hk : k' = k
      · exfalso
        subst hk
        exact h.1 (List.mem_map.mpr ⟨(k', v), h1, rfl⟩)
      · simp only [getKey, if_neg hk]
        exact ih h.2 h1

theorem applyEvent_content_keys_nodup (st : StreamingTurn) (ev : StreamEvent)
    (h : (st.content.map Prod.fst).Nodup) :
    (((applyEvent st ev).content).map Prod.fst).Nodup := by
  rw [show (applyEvent st ev).content = (applyDelta st ev).content from
        applyError_content (applyDelta st ev) ev]
  cases hd : ev.delta with
  | none => simpa [applyDelta, hd] using h
  | some d =>
    by_cases hde : d = ""
    · simpa [applyDelta, hd, hde] using h
    · rw [applyDelta_content_some st ev d hd hde]
      exact nodup_keys_setKey _ _ _ h

theorem applyEvent_errors_keys_nodup (st : StreamingTurn) (ev : StreamEvent)
    (h : (st.errors.map Prod.fst).Nodup) :
    (((applyEvent st ev).errors).map Prod.fst).Nodup := by
  have herr : (applyEvent st ev).errors = (applyError (applyDelta st ev) ev).errors :=
    rfl
  have hde : (applyDelta st ev).errors = st.errors := applyDelta_errors st ev
  rw [herr]
  cases he : ev.error with
  | none => simpa [applyError, he, hde] using h
  | some e =>
    by_cases hee : e = ""
    · simpa [applyError, he, hee, hde] using h
    · simp only [applyError, he, if_neg hee]
      rw [hde]
      exact nodup_keys_setKey _ _ _ h

theorem applyEvents_keys_nodup (evs : List StreamEvent) (st : StreamingTurn)
    (hc : (st.content.map Prod.fst).Nodup)
    (he : (st.errors.map Prod.fst).Nodup) :
    (((applyEvents st evs).content).map Prod.fst).Nodup ∧
      (((applyEvents st evs).errors).map Prod.fst).Nodup := by
  induction evs generalizing st with
  | nil => exact ⟨hc, he⟩
  | cons ev evs ih =>
    exact ih (applyEvent st ev)
      (applyEvent_content_keys_nodup st ev hc)
      (applyEvent_errors_keys_nodup st ev he)

theorem pushMissingErrors_any (errsAll : List (String × String))
    (es : List (String × String)) (rs : List ProviderResponse) (p : String) :
    (pushMissingErrors errsAll rs es).any (fun r => r.provider_id == p) =
      (rs.any (fun r => r.provider_id == p) || es.any (fun e => e.1 == p)) := by
  induction es generalizing rs with
  | nil => simp [pushMissingErrors]
  | cons e rest ih =>
    obtain ⟨id, v⟩ := e
    cases hid : rs.any (fun r => r.provider_id == id) with
    | true =>
      simp only [pushMissingErrors, hid, if_true, ih]
      by_cases hp : id = p
      · subst hp
        rw [hid]
        simp
      · have hbp : (id == p) = false := beq_eq_false_iff_ne.mpr hp
        simp only [List.any_cons, hbp, Bool.false_or]
    | false =>
      simp only [pushMissingErrors, hid, Bool.false_eq_true, if_false, ih]
      rw [List.any_append]
      simp only [List.any_cons, List.any_nil, Bool.or_false]
      rw [Bool.or_assoc]

theorem pushMissingErrors_count (errsAll : List (String × String))
    (es : List (String × String)) (rs : List ProviderResponse) (p : String)
    (H : ∀ q, (rs.filter (fun r => r.provider_id == q)).length =
          if rs.any (fun r => r.provider_id == q) then 1 else 0) :
    ((pushMissingErrors errsAll rs es).filter
        (fun r => r.provider_id == p)).length =
      if (rs.any (fun r => r.provider_id == p) || es.any (fun e => e.1 == p))
      then 1 else 0 := by
  induction es generalizing rs with
  | nil => simp [pushMissingErrors, H p]
  | cons e rest ih =>
    obtain ⟨id, v⟩ := e
    cases hid : rs.any (fun r => r.provider_id == id) with
    | true =>
      simp only [pushMissingErrors, hid, if_true]
      rw [ih rs H]
      by_cases hp : id = p
      · subst hp
        rw [hid]
        simp
      · have hbp : (id == p) = false := beq_eq_false_iff_ne.mpr hp
        simp only [List.any_cons, hbp, Bool.false_or]
    | false =>
      simp only [pushMissingErrors, hid, Bool.false_eq_true, if_false]
      have H' : ∀ q,
          ((rs ++ [ProviderResponse.mk id "" (getKey errsAll id)]).filter
            (fun r => r.provider_id == q)).length =
          if (rs ++ [ProviderResponse.mk id "" (getKey errsAll id)]).any
              (fun r => r.provider_id == q) then 1 else 0 := by
        intro q
        rw [List.filter_append, List.length_append, List.any_append, H q]
        by_cases hq : id = q
        · subst hq
          rw [hid]
          simp
        · have hbq : (id == q) = false := beq_eq_false_iff_ne.mpr hq
          simp [hbq]
      rw [ih _ H', List.any_append]
      simp only [List.any_cons, List.any_nil, Bool.or_false]
      rw [Bool.or_assoc]

theorem pushMissingErrors_all (errsAll : List (String × String))
    (es : List (String × String)) (rs : List ProviderResponse)
    (P : ProviderResponse → Bool) (h1 : rs.all P = true)
    (h2 : ∀ id v, (id, v) ∈ es →
        rs.any (fun r => r.provider_id == id) = false →
        P ⟨id, "", getKey errsAll id⟩ = true) :
    (pushMissingErrors errsAll rs es).all P = true := by
  induction es generalizing rs with
  | nil => simpa [pushMissingErrors] using h1
  | cons e rest ih =>
    obtain ⟨id, v⟩ := e
    cases hid : rs.any (fun r => r.provider_id == id) with
    | true =>
      simp only [pushMissingErrors, hid, if_true]
      exact ih rs h1 (fun id' v' hm hf => h2 id' v' (List.mem_cons_of_mem _ hm) hf)
    | false =>
      simp only [pushMissingErrors, hid, Bool.false_eq_true, if_false]
      refine ih _ ?_ ?_
      · rw [List.all_append]
        rw [h1]
        simpa using h2 id v (List.mem_cons_self _ _) hid
      · intro id' v' hm hf
        have hf' : rs.any (fun r => r.provider_id == id') = false := by
          rw [List.any_append] at hf
          exact (Bool.or_eq_false_iff.mp hf).1
        exact h2 id' v' (List.mem_cons_of_mem _ hm) hf'

theorem baseResponses_any (m errs : List (String × String)) (p : String) :
    ((m.map fun q => (⟨q.1, q.2, getKey errs q.1⟩ : ProviderResponse)).any
      (fun r => r.provider_id == p)) = hasKey m p := by
  induction m with
  | nil => simp [hasKey, getKey]
  | cons q rest ih =>
    obtain ⟨k, v⟩ := q
    by_cases hk : k = p
    · subst hk
      simp [hasKey, getKey]
    · simp only [List.map_cons, List.any_cons, ih]
      have hbeq : ((⟨k, v, getKey errs k⟩ : ProviderResponse).provider_id == p)
          = false := by
        simp [hk]
      rw [hbeq]
      simp only [Bool.false_or]
      simp [hasKey, getKey, hk]

theorem baseResponses_count (m errs : List (String × String)) (p : String)
    (h : (m.map Prod.fst).Nodup) :
    ((m.map fun q => (⟨q.1, q.2, getKey errs q.1⟩ : ProviderResponse)).filter
      (fun r => r.provider_id == p)).length = if hasKey m p then 1 else 0 := by
  induction m with
  | nil => simp [hasKey, getKey]
  | cons q rest ih =>
    obtain ⟨k, v⟩ := q
    simp only [List.map_cons, List.nodup_cons] at h
    by_cases hk : k = p
    · subst hk
      have hhk : hasKey rest k = false := by
        rw [hasKey_eq_false_iff]
        exact h.1
      simp only [List.map_cons, List.filter_cons]
      have hbeq : ((⟨k, v, getKey errs k⟩ : ProviderResponse).provider_id == k)
          = true := by simp
      rw [hbeq]
      simp only [if_true, List.length_cons, ih h.2, hhk]
      simp [hasKey, getKey]
    · simp only [List.map_cons, List.filter_cons]
      have hbeq : ((⟨k, v, getKey errs k⟩ : ProviderResponse).provider_id == p)
          = false := by simp [hk]
      rw [hbeq]
      simp only [Bool.false_eq_true, if_false, ih h.2]
      simp [hasKey, getKey, hk]

theorem baseResponses_all (m errs : List (String × String))
    (h : (m.map Prod.fst).Nodup) :
    ((m.map fun q => (⟨q.1, q.2, getKey errs q.1⟩ : ProviderResponse)).all
      (fun r => (r.content == (getKey m r.provider_id).getD "")
             && (r.error == getKey errs r.provider_id))) = true := by
  rw [List.all_eq_true]
  intro r hr
  rw [List.mem_map] at hr
  obtain ⟨⟨k, v⟩, hmem, hre⟩ := hr
  have hkv : getKey m k = some v := getKey_of_mem_nodup m k v h hmem
  subst hre
  simp [hkv]

theorem hasKey_eq_any (m : List (String × String)) (q : String) :
    hasKey m q = m.any (fun e => e.1 == q) := by
  induction m with
  | nil => simp [hasKey, getKey]
  | cons p rest ih =>
    obtain ⟨k, v⟩ := p
    by_cases h : k = q
    · subst h
      simp [hasKey, getKey]
    · have hb : (k == q) = false := beq_eq_false_iff_ne.mpr h
      simp only [List.any_cons, hb, Bool.false_or, ← ih]
      simp [hasKey, getKey, h]

theorem turnsMessages_append (ts₁ ts₂ : List Turn) :
    turnsMessages (ts₁ ++ ts₂) = turnsMessages ts₁ ++ turnsMessages ts₂ := by
  induction ts₁ with
  | nil => simp [turnsMessages]
  | cons t ts ih => simp [turnsMessages, ih]

/-- C1: for every stream body returned by POST /debate/stream (any chunk
sequence), sendDebateRoundStream invokes onEvent exactly once per complete
line that starts with "data: " and whose remainder parses as JSON, with the
parsed object, in stream order: the delivered sequence is eventsOfLines
over the complete lines of the concatenated stream text, and by the
definition of processLine a "data: " line with unparsable remainder
contributes no event and aborts nothing. -/
theorem claim_c1_stream_events (base : String) (msgs : List ChatMessage)
    (ids : Option (List String)) (statusText : String)
    (bodyError : Option String) (parse : List Char → Option StreamEvent)
    (chunks : List (List Char)) :
    (sendDebateRoundStream base msgs ids parse
        ⟨true, statusText, bodyError, some chunks⟩).2 =
      .ok (eventsOfLines parse (splitNl chunks.flatten).1) := by
  show Except.ok (runStream parse chunks) = _
  rw [runStream, runPair_eq]

/-- C9: the event sequence delivered by the read loop depends only on the
concatenation of the chunks read, not on the chunk boundaries; stated, as
the claim does, for streams whose text ends with a newline. -/
theorem claim_c9_chunking_indep (parse : List Char → Option StreamEvent)
    (cs₁ cs₂ : List (List Char)) (h : cs₁.flatten = cs₂.flatten)
    (_hnl : cs₁.flatten.getLast? = some '\n') :
    runStream parse cs₁ = runStream parse cs₂ := by
  unfold runStream
  rw [runPair_eq, runPair_eq, h]

theorem claim_c9_witness :
    runStream sampleParse ["data: x\n".toList]
      = runStream sampleParse ["data".toList, ": x\n".toList] :=
  claim_c9_chunking_indep sampleParse _ _ (by decide) (by decide)

/-- C10: when the stream text does not end with a newline, the read loop
ends with the final incomplete line still in the buffer and delivers only
the events of the complete prefix - an event record carried only on the
unterminated last line is silently dropped. -/
theorem claim_c10_tail_dropped (parse : List Char → Option StreamEvent)
    (chunks : List (List Char)) (pre t : List Char)
    (hj : chunks.flatten = pre ++ t)
    (hpre : pre = [] ∨ ∃ l, pre = l ++ ['\n'])
    (ht : '\n' ∉ t) :
    runPair parse chunks = (t, eventsOfLines parse (splitNl pre).1) := by
  rw [runPair_eq, hj]
  have h2 : (splitNl pre).2 = [] := by
    rcases hpre with h | ⟨l, h⟩
    · subst h
      rfl
    · subst h
      show (List.foldl pushChar ([], []) (l ++ ['\n'])).2 = []
      rw [List.foldl_append]
      simp [pushChar]
  have h3 : splitNl ((splitNl pre).2 ++ t) = ([], t) := by
    rw [h2]
    simpa using splitNl_no_nl t ht
  rw [splitNl_append pre t, h3]
  simp

theorem claim_c10_witness :
    runPair sampleParse ["data: a\ndata: tail".toList] =
      ("data: tail".toList,
       [⟨"a", some "a", none, none⟩]) :=
  (claim_c10_tail_dropped sampleParse ["data: a\ndata: tail".toList]
    "data: a\n".toList "data: tail".toList (by decide)
    (Or.inr ⟨"data: a".toList, by decide⟩) (by decide)).trans (by decide)

/-- C2: the content the App accumulates for provider p is exactly the
concatenation, in arrival order, of the delta texts of the events of p -
so events of other providers never alter it - and in particular the lane
emitting deltas "He" and "llo" and then a done event accumulates "Hello". -/
theorem claim_c2_accumulation (u : String) (evs : List StreamEvent)
    (p : String) :
    contentFor (applyEvents ⟨u, [], []⟩ evs) p = concatAll (deltaTexts p evs)
    ∧ contentFor (applyEvents ⟨u, [], []⟩
        [⟨p, some "He", none, none⟩, ⟨p, some "llo", none, none⟩,
         ⟨p, none, some true, none⟩]) p = "Hello" := by
  constructor
  · rw [contentFor_applyEvents]
    show (getKey [] p).getD "" ++ _ = _
    simp [getKey, String.empty_append]
  · rw [contentFor_applyEvents]
    show (getKey [] p).getD "" ++ _ = _
    simp only [getKey, Option.getD_none, String.empty_append, deltaTexts,
      if_pos rfl, concatAll]
    rw [String.append_empty]
    decide

/-- C3 as stated fails on the code: with a selected provider A whose lane
emits only a terminal done event (no delta, no error), the App records no
ProviderResponse entry at all for A - the onEvent callback does not touch
its state on a pure done event and the assembly iterates only the content
and error records. -/
theorem claim_c3_counterexample :
    assembleResponses (applyEvents ⟨"q", [], []⟩ [⟨"A", none, some true, none⟩])
      = []
    ∧ ((assembleResponses (applyEvents ⟨"q", [], []⟩
          [⟨"A", none, some true, none⟩])).any
        (fun r => r.provider_id == "A")) = false :=
  ⟨rfl, rfl⟩

/-- C3 amended: the recorded turn contains exactly one entry per provider
for which the handler recorded accumulated content (a nonempty delta) or a
nonempty error - a provider whose lane emitted only a done event gets no
entry - and each entry carries the accumulated content together with the
recorded error if any. -/
theorem claim_c3_amended (u : String) (evs : List StreamEvent) (p : String) :
    ((assembleResponses (applyEvents ⟨u, [], []⟩ evs)).filter
        (fun r => r.provider_id == p)).length =
      (if hasKey (applyEvents ⟨u, [], []⟩ evs).content p
          || hasKey (applyEvents ⟨u, [], []⟩ evs).errors p then 1 else 0)
    ∧ ((assembleResponses (applyEvents ⟨u, [], []⟩ evs)).all
        (fun r => (r.content ==
              (getKey (applyEvents ⟨u, [], []⟩ evs).content r.provider_id).getD "")
           && (r.error ==
              getKey (applyEvents ⟨u, [], []⟩ evs).errors r.provider_id))) = true := by
  obtain ⟨hc, he⟩ := applyEvents_keys_nodup evs ⟨u, [], []⟩ (by simp) (by simp)
  constructor
  · unfold assembleResponses
    rw [pushMissingErrors_count (applyEvents ⟨u, [], []⟩ evs).errors
        (applyEvents ⟨u, [], []⟩ evs).errors _ p (fun q => by
          rw [baseResponses_count _ _ q hc, baseResponses_any])]
    rw [baseResponses_any, ← hasKey_eq_any]
  · unfold assembleResponses
    apply pushMissingErrors_all
    · exact baseResponses_all _ _ hc
    · intro id v _hm hf
      rw [baseResponses_any] at hf
      have hnone : getKey (applyEvents ⟨u, [], []⟩ evs).content id = none :=
        getKey_eq_none_of_hasKey_false _ _ hf
      simp [hnone]

/-- C4 as stated fails on the code: a non-2xx response whose JSON body
parses and has an error field that is the empty string does not produce
that field as the message - JS truthiness of the empty string makes
`err.error || res.statusText` fall back to the status text. -/
theorem claim_c4_counterexample :
    (sendDebateRound "/api" [] none
        ⟨false, "Internal Server Error", some "", []⟩).2 =
      .error "Internal Server Error"
    ∧ ("Internal Server Error" : String) ≠ "" :=
  ⟨rfl, by decide⟩

/-- C4 amended: on a non-2xx response each of sendDebateRound and
sendDebateRoundStream throws an Error whose message is the error field of
the JSON body when that body parses and has a nonempty one, and the HTTP
status text otherwise; the result is the thrown error, so no
DebateResponse is returned and no stream event is delivered to onEvent. -/
theorem claim_c4_amended (base : String) (msgs : List ChatMessage)
    (ids : Option (List String)) (parse : List Char → Option StreamEvent)
    (res : FetchResponse) (sres : StreamFetchResponse)
    (h : res.ok = false) (hs : sres.ok = false) :
    (sendDebateRound base msgs ids res).2 =
      .error (match res.bodyError with
              | some e => if e = "" then res.statusText else e
              | none => res.statusText)
    ∧ (sendDebateRoundStream base msgs ids parse sres).2 =
      .error (match sres.bodyError with
              | some e => if e = "" then sres.statusText else e
              | none => sres.statusText) := by
  constructor
  · show (if !res.ok then _ else _) = _
    rw [h]
    rfl
  · show (if !sres.ok then _ else _) = _
    rw [hs]
    rfl

theorem claim_c4_witness :
    (sendDebateRound "/api" [] none ⟨false, "Bad Gateway", some "boom", []⟩).2 =
      .error "boom"
    ∧ (sendDebateRoundStream "/api" [] none sampleParse
        ⟨false, "Bad Gateway", none, none⟩).2 = .error "Bad Gateway" := by
  have h := claim_c4_amended "/api" [] none sampleParse
    ⟨false, "Bad Gateway", some "boom", []⟩ ⟨false, "Bad Gateway", none, none⟩
    rfl rfl
  exact ⟨h.1.trans rfl, h.2.trans rfl⟩

/-- C5: with an empty selected-model list, handleSubmit never produces a
request action (so neither sendDebateRound nor sendDebateRoundStream is
reached), and on an actual attempt (nonblank trimmed input, not loading)
it surfaces exactly the select-at-least-one-model error banner. -/
theorem claim_c5_empty_selection (input : String) (loading streaming : Bool)
    (turns : List Turn) :
    isSend (handleSubmit input loading streaming [] turns) = false
    ∧ (jsTrim input ≠ "" → loading = false →
        handleSubmit input loading streaming [] turns =
          .reject "Please select at least one model to participate.") := by
  constructor
  · unfold handleSubmit
    cases h : (jsTrim input == "" || loading) with
    | true => simp [h, isSend]
    | false => simp [h, isSend]
  · intro h1 h2
    subst h2
    unfold handleSubmit
    have ht : (jsTrim input == "") = false := beq_eq_false_iff_ne.mpr h1
    simp [ht]

theorem claim_c5_witness :
    handleSubmit "hi" false false [] [] =
      .reject "Please select at least one model to participate." :=
  (claim_c5_empty_selection "hi" false false []).2 (by decide) rfl

/-- C6: sendDebateRound issues exactly one POST to base + "/debate" and
sendDebateRoundStream exactly one POST to base + "/debate/stream", both
with Content-Type application/json and the identical JSON body
`{messages, model_ids}`. -/
theorem claim_c6_request_shape (base : String) (msgs : List ChatMessage)
    (ids : Option (List String)) (res : FetchResponse)
    (sres : StreamFetchResponse) (parse : List Char → Option StreamEvent) :
    (sendDebateRound base msgs ids res).1 =
      ⟨"POST", base ++ "/debate", some "application/json", some ⟨msgs, ids⟩⟩
    ∧ (sendDebateRoundStream base msgs ids parse sres).1 =
      ⟨"POST", base ++ "/debate/stream", some "application/json",
        some ⟨msgs, ids⟩⟩
    ∧ (sendDebateRound base msgs ids res).1.body =
      (sendDebateRoundStream base msgs ids parse sres).1.body :=
  ⟨rfl, rfl, rfl⟩

/-- C7: getAvailableModels issues a single GET of base + "/models" with no
content type and no body; on a successful response whose parsed body has a
models field it returns that models array, and it returns the empty list
instead of throwing both on a non-2xx response and on a parsed body that
lacks a models field. -/
theorem claim_c7_models (base : String) (res : ModelsFetchResponse) :
    (getAvailableModels base res).1 = ⟨"GET", base ++ "/models", none, none⟩
    ∧ (res.ok = false → (getAvailableModels base res).2 = .ok [])
    ∧ (res.ok = true → res.body = some none →
        (getAvailableModels base res).2 = .ok [])
    ∧ (∀ ms, res.ok = true → res.body = some (some ms) →
        (getAvailableModels base res).2 = .ok ms) := by
  refine ⟨rfl, ?_, ?_, ?_⟩
  · intro h
    show (if !res.ok then _ else _) = _
    rw [h]
    rfl
  · intro h hb
    show (if !res.ok then _ else _) = _
    rw [h, hb]
    rfl
  · intro ms h hb
    show (if !res.ok then _ else _) = _
    rw [h, hb]
    rfl

theorem claim_c7_witness :
    (getAvailableModels "/api" ⟨false, none⟩).2 = .ok []
    ∧ (getAvailableModels "/api" ⟨true, some none⟩).2 = .ok []
    ∧ (getAvailableModels "/api"
        ⟨true, some (some ["chatgpt", "gemini"])⟩).2 =
        .ok ["chatgpt", "gemini"] :=
  ⟨(claim_c7_models "/api" ⟨false, none⟩).2.1 rfl,
   (claim_c7_models "/api" ⟨true, some none⟩).2.2.1 rfl rfl,
   (claim_c7_models "/api" ⟨true, some (some ["chatgpt", "gemini"])⟩).2.2.2
     ["chatgpt", "gemini"] rfl rfl⟩

/-- C8 as stated fails on the code: a prior assistant response with
recorded content "hi" is forwarded as "Model ChatGPT: hi" - the App
prefixes every prior response with the provider label, so the content is
not preserved unchanged. -/
theorem claim_c8_counterexample :
    buildMessages [⟨"q", [⟨"chatgpt", "hi", none⟩]⟩] "next"
      = [⟨.user, "q"⟩, ⟨.assistant, "Model ChatGPT: hi"⟩, ⟨.user, "next"⟩]
    ∧ ("Model ChatGPT: hi" : String) ≠ "hi" :=
  ⟨by decide, by decide⟩

/-- C8 amended: the conversation is built chronologically - the empty
history yields just the new user message, and appending a prior turn
contributes, after the earlier turns, its user message followed by one
assistant message per response with nonempty content and falsy error whose
content is the recorded content prefixed by "Model <label>: ", with the new
user message last. -/
theorem claim_c8_amended (ts : List Turn) (t : Turn) (text : String) :
    buildMessages [] text = [⟨.user, text⟩]
    ∧ buildMessages (ts ++ [t]) text =
        buildMessages ts t.user
        ++ ((t.responses.filter fun r => r.content != "" && !truthyOpt r.error).map
              fun r => ⟨.assistant,
                "Model " ++ getProviderLabel r.provider_id ++ ": " ++ r.content⟩)
        ++ [⟨.user, text⟩] := by
  constructor
  · rfl
  · unfold buildMessages
    rw [turnsMessages_append]
    simp [turnsMessages, turnMessages, List.append_assoc]
